import Mathlib

/-!
# FreshBooksBackend — bill creation and price resolution, shallowly embedded

This file embeds the bill-creation / price-resolution pipeline of the
FreshBooksBackend repository in Lean 4 and proves (or refutes) the frozen
claims about it.

Conventions of the embedding:
* JavaScript `number` money amounts are modelled as exact rationals (`ℚ`);
  `Number(x.toFixed(2))` becomes `toFixed2`, rounding to 2 decimal places
  with the ECMAScript tie-break (ties to the larger value, which on the
  strictly positive amounts arising after validation coincides with
  half-away-from-zero).
* Database tables are lists of rows; `defaultRandom()` uuid generation is
  modelled by a monotone counter handing out fresh numeric ids.
* Timestamps are naturals; each `new Date()` call site receives its clock
  value as an explicit parameter.
* Fallible backend calls (the Postgres insert, the Redis commands) are
  modelled through explicit oracles saying whether the call succeeds; a
  thrown exception is an `Except.error` / error response.
-/

/-- JS `Number((x).toFixed(2))` over exact rationals: round `x` to 2 decimal
places; a tie goes to the larger value (ECMAScript `toFixed` picks the larger
candidate integer `n`). -/
def toFixed2 (x : ℚ) : ℚ := (⌊100 * x + 1/2⌋ : ℚ) / 100

/-- A row of the `vegetables` table (drizzle schema: `id` uuid pk,
`name` text not null, `is_available` / `has_fixed_price` nullable booleans,
`fixed_price` nullable numeric). Rows created by the code always populate the
nullable columns, which stay `Option` to keep the `?? true` / `?? false`
coalescing in the service visible. -/
structure Vegetable where
  id : Nat
  name : String
  isAvailable : Option Bool
  hasFixedPrice : Option Bool
  fixedPrice : Option ℚ
deriving Repr, DecidableEq

/-- The `VegetableItem` interface: a bill line item, before or after
reconciliation (`src/interfaces/index.ts`). -/
structure VegetableItem where
  id : Option Nat
  name : String
  quantity : ℚ
  price : ℚ
  item_total : Option ℚ
  isAvailable : Option Bool
  hasFixedPrice : Option Bool
  fixedPrice : Option ℚ
deriving Repr, DecidableEq

/-- The select `db.select().from(vegetables).where(eq(vegetables.name, n))` followed by
taking the first returned row. -/
def findVeg (cat : List Vegetable) (n : String) : Option Vegetable :=
  cat.find? (fun v => v.name == n)

namespace VegetableServiceImpl

/-- Resolution of a line item against an existing catalogue row in
`src/services/vegetable.service.ts` (the consolidated service): the price
used is `item.price`, the caller's price, with no fixed-price override; the
catalogue flags are carried over with the `?? true` / `?? false` defaults,
and `fixedPrice` is copied (a non-null numeric is truthy). -/
def resolveExisting (item : VegetableItem) (veg : Vegetable) : VegetableItem :=
  let price := item.price
  { item with
      id := some veg.id
      price := price
      item_total := some (toFixed2 (price * item.quantity))
      isAvailable := some (veg.isAvailable.getD true)
      hasFixedPrice := some (veg.hasFixedPrice.getD false)
      fixedPrice := veg.fixedPrice }

/-- The first loop of `validateAndCreateVegetables`: for each item, select the
catalogue row by name; a hit is resolved immediately, a miss pushes the name
onto the insert batch (all other inserted fields are the constants
`isAvailable = true`, `hasFixedPrice = false`, `fixedPrice = null`). Returns
the resolved known items (in submission order) and the batch of names (in
submission order). -/
def validatePass (cat : List Vegetable) : List VegetableItem → List VegetableItem × List String
  | [] => ([], [])
  | item :: rest =>
    let tail := validatePass cat rest
    match findVeg cat item.name with
    | some v => (resolveExisting item v :: tail.1, tail.2)
    | none => (tail.1, item.name :: tail.2)

/-- The insert `db.insert(vegetables).values(batch).returning()`: one fresh row per batch
entry, ids handed out sequentially, `isAvailable = true`,
`hasFixedPrice = false`, `fixedPrice = null`. -/
def newRowsFor (nextId : Nat) : List String → List Vegetable
  | [] => []
  | n :: rest => ⟨nextId, n, some true, some false, none⟩ :: newRowsFor (nextId + 1) rest

/-- Resolution of an input item against a freshly created row (second loop of
`validateAndCreateVegetables`): spread of the original item plus the new id,
the recomputed `item_total`, and the constant flags. -/
def resolveNew (item : VegetableItem) (veg : Vegetable) : VegetableItem :=
  { item with
      id := some veg.id
      item_total := some (toFixed2 (item.price * item.quantity))
      isAvailable := some true
      hasFixedPrice := some false
      fixedPrice := none }

/-- The second loop of `validateAndCreateVegetables`: for every created row,
`items.find(item => item.name === newVeg.name)` picks the FIRST input item
with that name and resolves it against the row. (The non-null assertion in the
source is total here: every created row's name came from some input item.) -/
def mapNewRows (items : List VegetableItem) (rows : List Vegetable) : List VegetableItem :=
  rows.filterMap (fun r => (items.find? (fun it => it.name == r.name)).map (fun it => resolveNew it r))

/-- The method `VegetableServiceImpl.validateAndCreateVegetables`
(`src/services/vegetable.service.ts`), as a function of the catalogue state:
returns the new catalogue (plus next fresh id) and the resolved item list
(known items first, then the items mapped back from the created rows). -/
def validateAndCreateVegetables (cat : List Vegetable) (nextId : Nat)
    (items : List VegetableItem) : (List Vegetable × Nat) × List VegetableItem :=
  let pass := validatePass cat items
  let rows := newRowsFor nextId pass.2
  ((cat ++ rows, nextId + rows.length), pass.1 ++ mapNewRows items rows)

end VegetableServiceImpl

namespace IndexVegetableService

/-- Resolution of a line item against an existing catalogue row in the
`VegetableService` class of `src/index.ts`: `// Use fixed price if available`
— the price is the catalogue's `fixedPrice` when `hasFixedPrice` is truthy
and `fixedPrice` is non-null, otherwise the caller's price. -/
def resolveExisting (item : VegetableItem) (veg : Vegetable) : VegetableItem :=
  let price :=
    if veg.hasFixedPrice.getD false && veg.fixedPrice.isSome then veg.fixedPrice.getD 0
    else item.price
  { item with
      id := some veg.id
      price := price
      item_total := some (toFixed2 (price * item.quantity))
      isAvailable := some (veg.isAvailable.getD true)
      hasFixedPrice := some (veg.hasFixedPrice.getD false)
      fixedPrice := veg.fixedPrice }

/-- First loop of `validateAndCreateVegetables` in `src/index.ts`; identical
to the consolidated service except for the fixed-price override in
`resolveExisting`. -/
def validatePass (cat : List Vegetable) : List VegetableItem → List VegetableItem × List String
  | [] => ([], [])
  | item :: rest =>
    let tail := validatePass cat rest
    match findVeg cat item.name with
    | some v => (resolveExisting item v :: tail.1, tail.2)
    | none => (tail.1, item.name :: tail.2)

/-- The method `VegetableService.validateAndCreateVegetables` of `src/index.ts`; the
batch-insert and map-back phases are textually the same as the consolidated
service. -/
def validateAndCreateVegetables (cat : List Vegetable) (nextId : Nat)
    (items : List VegetableItem) : (List Vegetable × Nat) × List VegetableItem :=
  let pass := validatePass cat items
  let rows := VegetableServiceImpl.newRowsFor nextId pass.2
  ((cat ++ rows, nextId + rows.length), pass.1 ++ VegetableServiceImpl.mapNewRows items rows)

end IndexVegetableService

/-! ## Request validation (`src/validators/schemas.ts`, `zod`) -/

/-- One issue of a `ZodError`: the structured violations collected by
`billSchema.parse`. -/
inductive Violation where
  | invalidProviderId
  | nonPositiveQuantity (name : String)
  | nonPositivePrice (name : String)
  | nonPositiveFixedPrice (name : String)
  | missingTotal
  | nonPositiveTotal
deriving Repr, DecidableEq

/-- Character class of the hexadecimal digits of a uuid. -/
def isHexDigit (c : Char) : Bool :=
  c.isDigit || ('a' ≤ c && c ≤ 'f') || ('A' ≤ c && c ≤ 'F')

/-- The check `z.string().uuid()`: 36 characters, hyphens at positions 8, 13, 18 and 23,
hexadecimal digits elsewhere. -/
def isUuid (s : String) : Bool :=
  let cs := s.toList
  cs.length == 36 &&
    (List.range 36).all (fun i =>
      match cs[i]? with
      | none => false
      | some c =>
        if i == 8 || i == 13 || i == 18 || i == 23 then c == '-' else isHexDigit c)

/-- The issues `vegetableItemSchema` raises for one line item:
`quantity: z.number().positive()`, `price: z.number().positive()`,
`fixedPrice: z.number().positive().nullish()`. -/
def itemViolations (it : VegetableItem) : List Violation :=
  (if it.quantity ≤ 0 then [Violation.nonPositiveQuantity it.name] else []) ++
  (if it.price ≤ 0 then [Violation.nonPositivePrice it.name] else []) ++
  (match it.fixedPrice with
   | some fp => if fp ≤ 0 then [Violation.nonPositiveFixedPrice it.name] else []
   | none => [])

/-- The body of `POST /api/bills` after JSON decoding, shaped as `billSchema`
expects: `total` is `none` when the field is absent, `date` is an optional
timestamp (the string/Date union is already transformed). -/
structure BillRequest where
  providerId : String
  providerName : String
  items : List VegetableItem
  total : Option ℚ
  signer : Option String
  date : Option Nat
deriving Repr, DecidableEq

/-- All issues `billSchema.parse` collects on a request: uuid shape of
`providerId`, the per-item issues, and `total: z.number().positive()`
(missing field or non-positive value). An empty list means the parse
succeeds. -/
def billViolations (b : BillRequest) : List Violation :=
  (if isUuid b.providerId then [] else [Violation.invalidProviderId]) ++
  b.items.flatMap itemViolations ++
  (match b.total with
   | none => [Violation.missingTotal]
   | some t => if t ≤ 0 then [Violation.nonPositiveTotal] else [])

/-! ## Cache-aside layer (`CacheServiceImpl`, `src/unnamed/part_001`) -/

/-- Whether each Redis command of a request succeeds; a `false` component
models the backend throwing on that command. -/
structure CacheOracle where
  getOk : Bool
  setOk : Bool
  delOk : Bool
deriving Repr, DecidableEq

/-- The key-value content of the cache, one entry per key. TTL expiry is not
modelled (no claim depends on it); `CACHE_DURATION = 3600` from the config. -/
structure CacheState (α : Type) where
  entries : List (String × α)
deriving Repr, DecidableEq

def CACHE_DURATION : Nat := 3600

/-- The raw backend call `redis.get(key)`, which may throw. -/
def rawGet {α : Type} (co : CacheOracle) (cs : CacheState α) (key : String) :
    Except Unit (Option α) :=
  if co.getOk then Except.ok ((cs.entries.find? (fun e => e.1 == key)).map (·.2))
  else Except.error ()

/-- The method `CacheServiceImpl.get`: the backend call is wrapped in
try/catch and an error returns null — a backend failure degrades to a
miss. -/
def cacheGet {α : Type} (co : CacheOracle) (cs : CacheState α) (key : String) : Option α :=
  match rawGet co cs key with
  | Except.ok v => v
  | Except.error _ => none

/-- The raw backend call of `redis.set` with a ttl. -/
def rawSet {α : Type} (co : CacheOracle) (cs : CacheState α) (key : String) (v : α) :
    Except Unit (CacheState α) :=
  if co.setOk then
    Except.ok ⟨(key, v) :: cs.entries.filter (fun e => !(e.1 == key))⟩
  else Except.error ()

/-- The method `CacheServiceImpl.set`: the error is caught and logged, the call returns
normally either way (the ttl argument is threaded but expiry is not
modelled). -/
def cacheSet {α : Type} (co : CacheOracle) (cs : CacheState α) (key : String) (v : α)
    (_ttl : Nat) : CacheState α :=
  match rawSet co cs key v with
  | Except.ok cs' => cs'
  | Except.error _ => cs

/-- The raw backend call `redis.del(key)`. -/
def rawDel {α : Type} (co : CacheOracle) (cs : CacheState α) (key : String) :
    Except Unit (CacheState α) :=
  if co.delOk then Except.ok ⟨cs.entries.filter (fun e => !(e.1 == key))⟩
  else Except.error ()

/-- The method `CacheServiceImpl.del`: the error is caught and logged, the call returns
normally either way. -/
def cacheDel {α : Type} (co : CacheOracle) (cs : CacheState α) (key : String) : CacheState α :=
  match rawDel co cs key with
  | Except.ok cs' => cs'
  | Except.error _ => cs

/-! ## Persistent store and the bill routes (`src/routes/bill.routes.ts`) -/

/-- A row of the `bills` table: `total` is `numeric` (stored from
`total.toString()`), `items` is the jsonb column holding the resolved line
items, `date`/`createdAt` are timestamps. -/
structure Bill where
  id : Nat
  providerId : String
  providerName : String
  items : List VegetableItem
  total : ℚ
  date : Nat
  signer : Option String
  createdAt : Nat
deriving Repr, DecidableEq

/-- The durable store: the `vegetables` and `bills` tables plus the fresh-id
counters standing in for `defaultRandom()`. -/
structure Store where
  vegetables : List Vegetable
  nextVegId : Nat
  bills : List Bill
  nextBillId : Nat
deriving Repr, DecidableEq

/-- Whether each database insert of a bill-creation request succeeds. -/
structure DbOracle where
  vegInsertOk : Bool
  billInsertOk : Bool
deriving Repr, DecidableEq

/-- The observable side effects of one bill-creation call, in order. -/
inductive DbEvent where
  | vegInsert (names : List String)
  | billInsert
  | cacheDelBills
deriving Repr, DecidableEq

/-- The response of `POST /api/bills`: `created` is the 201 with the persisted
row; `validationError` is the 400 the error middleware produces from a
`ZodError` (with its structured `details`); `serverError` is the generic 500
for any other thrown error. -/
inductive BillResponse where
  | created (bill : Bill)
  | validationError (details : List Violation)
  | serverError
deriving Repr, DecidableEq

/-- The result of one `POST /api/bills` call: updated store, updated cache,
the ordered event trace, and the HTTP response. -/
abbrev PostBillResult := Store × CacheState (List Bill) × List DbEvent × BillResponse

def storeOf (r : PostBillResult) : Store := r.1

def cacheOf (r : PostBillResult) : CacheState (List Bill) := r.2.1

def traceOf (r : PostBillResult) : List DbEvent := r.2.2.1

def respOf (r : PostBillResult) : BillResponse := r.2.2.2

/-- The `POST /` handler of `src/routes/bill.routes.ts`:
1. `billData = { ...req.body, date: req.body.date || now, createdAt: now }`;
2. `billSchema.parse(billData)` — a `ZodError` becomes the 400 response
   before anything is written;
3. `vegetableService.validateAndCreateVegetables(validated.items)` — the
   batch insert of unseen names may fail, aborting the call with a 500
   before the bill insert;
4. `total = Number(items.reduce((sum, item) => sum + (item.item_total || 0), 0).toFixed(2))`;
5. `db.insert(bills).values({ ...validated, items, total: total.toString(),
   date: new Date(), createdAt: new Date() }).returning()` — note the insert
   overwrites `date` and `createdAt` with fresh clock readings (`nowIns`);
6. `cache.del("bills:all")` after the insert returns.
`now` is the clock at the top of the handler, `nowIns` the clock at the
insert. -/
def postBill (oracle : DbOracle) (co : CacheOracle) (store : Store)
    (cs : CacheState (List Bill)) (now nowIns : Nat) (req : BillRequest) : PostBillResult :=
  let billData : BillRequest := { req with date := some (req.date.getD now) }
  let details := billViolations billData
  if details.isEmpty then
    let pass := VegetableServiceImpl.validatePass store.vegetables billData.items
    if pass.2.isEmpty || oracle.vegInsertOk then
      let recon := VegetableServiceImpl.validateAndCreateVegetables
        store.vegetables store.nextVegId billData.items
      let store1 : Store := { store with vegetables := recon.1.1, nextVegId := recon.1.2 }
      let ev1 : List DbEvent := if pass.2.isEmpty then [] else [DbEvent.vegInsert pass.2]
      let validatedItems := recon.2
      let total := toFixed2 (validatedItems.foldl (fun sum it => sum + it.item_total.getD 0) 0)
      if oracle.billInsertOk then
        let bill : Bill :=
          { id := store.nextBillId
            providerId := billData.providerId
            providerName := billData.providerName
            items := validatedItems
            total := total
            date := nowIns
            signer := billData.signer
            createdAt := nowIns }
        let store2 : Store := { store1 with
          bills := store1.bills ++ [bill], nextBillId := store.nextBillId + 1 }
        (store2, cacheDel co cs "bills:all",
          ev1 ++ [DbEvent.billInsert, DbEvent.cacheDelBills], BillResponse.created bill)
      else
        (store1, cs, ev1, BillResponse.serverError)
    else
      (store, cs, [], BillResponse.serverError)
  else
    (store, cs, [], BillResponse.validationError details)

/-- The `ORDER BY date DESC` of the bills listing, as an insertion sort. -/
def insertByDateDesc (b : Bill) : List Bill → List Bill
  | [] => [b]
  | x :: xs => if x.date < b.date then b :: x :: xs else x :: insertByDateDesc b xs

def sortBillsByDateDesc (l : List Bill) : List Bill :=
  l.foldr insertByDateDesc []

/-- The `GET /` handler of `src/routes/bill.routes.ts`: serve the cached
`bills:all` entry on a hit; on a miss (including a cache backend failure,
which `CacheServiceImpl.get` turns into a miss), read the store ordered by
date descending, try to cache it, and serve it. The `Except` result records
whether the handler itself threw. -/
def getBills (co : CacheOracle) (cs : CacheState (List Bill)) (store : Store) :
    CacheState (List Bill) × Except Unit (List Bill) :=
  match cacheGet co cs "bills:all" with
  | some cached => (cs, Except.ok cached)
  | none =>
    let data := sortBillsByDateDesc store.bills
    (cacheSet co cs "bills:all" data CACHE_DURATION, Except.ok data)

/-! ## The vegetable create route (`src/routes/vegetable.routes.ts`) -/

/-- The body of `POST /api/vegetables` as `vegetableSchema` sees it:
`isAvailable` defaults to `true`, `hasFixedPrice` to `false`, `fixedPrice`
is nullish. -/
structure VegetableCreateRequest where
  name : String
  isAvailable : Option Bool
  hasFixedPrice : Option Bool
  fixedPrice : Option ℚ
deriving Repr, DecidableEq

/-- The `POST /` handler of `src/routes/vegetable.routes.ts`: zod-validate
(`fixedPrice` positive when present, defaults applied), reject
`hasFixedPrice` without `fixedPrice` (a plain `Error`, so a 500 through the
error middleware), then insert the row unconditionally — there is no check
that a row with the same name already exists — and invalidate
`vegetables:all`. -/
def postVegetable (co : CacheOracle) (store : Store) (cs : CacheState (List Vegetable))
    (req : VegetableCreateRequest) :
    Store × CacheState (List Vegetable) × Except Unit Vegetable :=
  let isAv := req.isAvailable.getD true
  let hfp := req.hasFixedPrice.getD false
  let fpBad : Bool := match req.fixedPrice with
    | some fp => decide (fp ≤ 0)
    | none => false
  if fpBad then (store, cs, Except.error ())
  else if hfp && req.fixedPrice.isNone then (store, cs, Except.error ())
  else
    let veg : Vegetable := ⟨store.nextVegId, req.name, some isAv, some hfp, req.fixedPrice⟩
    ({ store with vegetables := store.vegetables ++ [veg], nextVegId := store.nextVegId + 1 },
      cacheDel co cs "vegetables:all", Except.ok veg)

/-! ## The declared storage constraints (`src/unnamed/part_005`, drizzle) -/

/-- The constraint surface of one column of a `pgTable` declaration. -/
structure ColumnSpec where
  columnName : String
  notNull : Bool
  isUnique : Bool
  isPrimaryKey : Bool
deriving Repr, DecidableEq

/-- The `vegetables` table of the consolidated drizzle schema:
`id` uuid primary key, `name` text `.notNull()` — with no `.unique()` —
and three nullable defaulted columns. -/
def vegetablesTable : List ColumnSpec :=
  [⟨"id", true, true, true⟩,
   ⟨"name", true, false, false⟩,
   ⟨"is_available", false, false, false⟩,
   ⟨"has_fixed_price", false, false, false⟩,
   ⟨"fixed_price", false, false, false⟩]

/-- The `signers` table of the same schema: `name` carries `.unique()` —
the only name column in the schema that does. -/
def signersTable : List ColumnSpec :=
  [⟨"id", true, true, true⟩,
   ⟨"name", true, true, false⟩]

/-! ## Projections and concrete fixtures used by the theorems below -/

/-- Extract the persisted bill of a 201 response. -/
def billOf : BillResponse → Option Bill
  | BillResponse.created b => some b
  | _ => none

/-- The `(date, createdAt)` stamps of the persisted bill of a 201 response. -/
def billStamps : BillResponse → Option (Nat × Nat)
  | BillResponse.created b => some (b.date, b.createdAt)
  | _ => none

def nilUuid : String := "00000000-0000-0000-0000-000000000000"

/-- Empty store: no catalogue rows, no bills. -/
def store0 : Store := ⟨[], 0, [], 0⟩

/-- All database inserts succeed. -/
def allDb : DbOracle := ⟨true, true⟩

/-- The vegetable batch insert fails (the bill insert would succeed). -/
def vegFailDb : DbOracle := ⟨false, true⟩

/-- All Redis commands succeed. -/
def allCache : CacheOracle := ⟨true, true, true⟩

/-- Empty bills cache. -/
def cs0 : CacheState (List Bill) := ⟨[]⟩

/-- Empty vegetables cache. -/
def vcs0 : CacheState (List Vegetable) := ⟨[]⟩

/-- Catalogue entry for "Potato" with a fixed price of 2.50. -/
def potatoVeg : Vegetable := ⟨0, "Potato", some true, some true, some (5/2)⟩

def potatoCat : List Vegetable := [potatoVeg]

/-- The spec's fixed-price probe: `{name: "Potato", price: 99, quantity: 3}`. -/
def potatoItem : VegetableItem := ⟨none, "Potato", 3, 99, none, none, none, none⟩

def potatoStore : Store := ⟨potatoCat, 1, [], 0⟩

def potatoReq : BillRequest := ⟨nilUuid, "Acme", [potatoItem], some 1, none, none⟩

/-- What the consolidated service resolves the Potato probe to: the caller's
price 99 kept, `item_total` 297. -/
def potatoResolved : VegetableItem :=
  ⟨some 0, "Potato", 3, 99, some 297, some true, some true, some (5/2)⟩

def potatoBill : Bill := ⟨0, nilUuid, "Acme", [potatoResolved], 297, 101, none, 101⟩

/-- Two line items sharing the previously-unseen name "Kale". -/
def kaleA : VegetableItem := ⟨none, "Kale", 1, 2, none, none, none, none⟩

def kaleB : VegetableItem := ⟨none, "Kale", 3, 4, none, none, none, none⟩

/-- A single-occurrence unseen item. -/
def tomatoItem : VegetableItem := ⟨none, "Tomato", 3, 2, none, none, none, none⟩

/-- A plain valid bill request: one unseen "Tomato" line. -/
def req1 : BillRequest := ⟨nilUuid, "Acme", [tomatoItem], some 10, none, none⟩

def tomatoResolved : VegetableItem :=
  ⟨some 0, "Tomato", 3, 2, some 6, some true, some false, none⟩

def bill1 : Bill := ⟨0, nilUuid, "Acme", [tomatoResolved], 6, 101, none, 101⟩

/-- Two line items sharing the previously-unseen name "Leek" in one bill. -/
def leekReq : BillRequest :=
  ⟨nilUuid, "Acme", [⟨none, "Leek", 1, 2, none, none, none, none⟩,
    ⟨none, "Leek", 2, 3, none, none, none, none⟩], some 1, none, none⟩

/-- A `POST /api/vegetables` body naming "Leek" with all defaults. -/
def leekCreate : VegetableCreateRequest := ⟨"Leek", none, none, none⟩

/-- An item whose raw product is a half-cent: price 0.005, quantity 1. -/
def halfCentA : VegetableItem := ⟨none, "A", 1, 1/200, none, none, none, none⟩

def halfCentB : VegetableItem := ⟨none, "B", 1, 1/200, none, none, none, none⟩

/-- Two half-cent lines: per-item rounding gives 0.01 + 0.01 = 0.02, while
rounding the raw sum 0.01 would give 0.01. -/
def halfCentReq : BillRequest := ⟨nilUuid, "Acme", [halfCentA, halfCentB], some 1, none, none⟩

def halfCentResolvedA : VegetableItem :=
  ⟨some 0, "A", 1, 1/200, some (1/100), some true, some false, none⟩

def halfCentResolvedB : VegetableItem :=
  ⟨some 1, "B", 1, 1/200, some (1/100), some true, some false, none⟩

def halfCentBill : Bill :=
  ⟨0, nilUuid, "Acme", [halfCentResolvedA, halfCentResolvedB], 1/50, 101, none, 101⟩

/-- A request carrying an explicit transaction date (5). -/
def dateReq : BillRequest := ⟨nilUuid, "Acme", [tomatoItem], some 10, none, some 5⟩

/-- A request with a zero-quantity line item. -/
def zeroQtyReq : BillRequest :=
  ⟨nilUuid, "Acme", [⟨none, "Tomato", 0, 2, none, none, none, none⟩], some 10, none, none⟩

/-- The request `req1` without the `total` field. -/
def noTotalReq : BillRequest := ⟨nilUuid, "Acme", [tomatoItem], none, none, none⟩

/-! ## Helper lemmas about the consolidated reconciler -/

theorem isUuid_nil : isUuid nilUuid = true := by decide

namespace VegetableServiceImpl

theorem validatePass_snd (cat : List Vegetable) (items : List VegetableItem) :
    (validatePass cat items).2 =
      (items.filter (fun it => (findVeg cat it.name).isNone)).map (·.name) := by
  induction items with
  | nil => rfl
  | cons it rest ih =>
    cases h : findVeg cat it.name with
    | some v => simp [validatePass, h, ih, List.filter_cons]
    | none => simp [validatePass, h, ih, List.filter_cons]

theorem validatePass_length (cat : List Vegetable) (items : List VegetableItem) :
    (validatePass cat items).1.length + (validatePass cat items).2.length = items.length := by
  induction items with
  | nil => rfl
  | cons it rest ih =>
    cases h : findVeg cat it.name with
    | some v => simp only [validatePass, h]; simp; omega
    | none => simp only [validatePass, h]; simp; omega

theorem newRowsFor_names (batch : List String) :
    ∀ nid, (newRowsFor nid batch).map (·.name) = batch := by
  induction batch with
  | nil => intro nid; rfl
  | cons n rest ih => intro nid; simp [newRowsFor, ih]

theorem newRowsFor_length (batch : List String) :
    ∀ nid, (newRowsFor nid batch).length = batch.length := by
  induction batch with
  | nil => intro nid; rfl
  | cons n rest ih => intro nid; simp [newRowsFor, ih]

theorem mapNewRows_length (items : List VegetableItem) (rows : List Vegetable)
    (h : ∀ r ∈ rows, ∃ it ∈ items, it.name = r.name) :
    (mapNewRows items rows).length = rows.length := by
  induction rows with
  | nil => rfl
  | cons r rest ih =>
    obtain ⟨it, hit, hname⟩ := h r (by simp)
    have hsome : (items.find? (fun x => x.name == r.name)).isSome := by
      rw [List.find?_isSome]
      exact ⟨it, hit, by simp [hname]⟩
    obtain ⟨y, hy⟩ := Option.isSome_iff_exists.mp hsome
    simp only [mapNewRows, List.filterMap_cons, hy, Option.map_some']
    simp only [mapNewRows] at ih
    simp [ih (fun r hr => h r (by simp [hr]))]

theorem validatePass_fst_total (cat : List Vegetable) (items : List VegetableItem) :
    ∀ it ∈ (validatePass cat items).1,
      it.item_total = some (toFixed2 (it.price * it.quantity)) := by
  induction items with
  | nil => intro it hmem; simp [validatePass] at hmem
  | cons x rest ih =>
    intro it hmem
    cases h : findVeg cat x.name with
    | some v =>
      simp only [validatePass, h] at hmem
      rcases List.mem_cons.mp hmem with heq | htail
      · subst heq; rfl
      · exact ih it htail
    | none =>
      simp only [validatePass, h] at hmem
      exact ih it hmem

theorem mapNewRows_total (items : List VegetableItem) (rows : List Vegetable) :
    ∀ it ∈ mapNewRows items rows,
      it.item_total = some (toFixed2 (it.price * it.quantity)) := by
  intro it hmem
  rw [mapNewRows, List.mem_filterMap] at hmem
  obtain ⟨r, _, heq⟩ := hmem
  cases hf : items.find? (fun x => x.name == r.name) with
  | none => rw [hf] at heq; simp at heq
  | some y => rw [hf] at heq; simp at heq; rw [← heq]; rfl

theorem reconcile_item_total (cat : List Vegetable) (nid : Nat) (items : List VegetableItem) :
    ∀ it ∈ (validateAndCreateVegetables cat nid items).2,
      it.item_total = some (toFixed2 (it.price * it.quantity)) := by
  intro it hmem
  unfold validateAndCreateVegetables at hmem
  rcases List.mem_append.mp hmem with h1 | h2
  · exact validatePass_fst_total cat items it h1
  · exact mapNewRows_total items _ it h2

end VegetableServiceImpl

/-- Summation shape of the route handler: the `reduce` over `item_total || 0`
equals the sum of the per-item rounded totals once every `item_total` is the
rounded product. -/
theorem foldl_item_total (l : List VegetableItem)
    (h : ∀ it ∈ l, it.item_total = some (toFixed2 (it.price * it.quantity))) :
    ∀ a : ℚ, l.foldl (fun sum it => sum + it.item_total.getD 0) a =
      a + (l.map (fun it => toFixed2 (it.price * it.quantity))).sum := by
  induction l with
  | nil => intro a; simp
  | cons x xs ih =>
    intro a
    have hx := h x (by simp)
    simp only [List.foldl_cons, hx, Option.getD_some, List.map_cons, List.sum_cons]
    rw [ih (fun it hit => h it (by simp [hit]))]
    ring

/-! ## Claim theorems -/

/-- C1. The fixed-price override is dropped by the consolidated service:
on a catalogue entry "Potato" with `hasFixedPrice = true, fixedPrice = 2.50`
and the submitted line `{name: "Potato", price: 99, quantity: 3}`, the
service of `src/services/vegetable.service.ts` resolves the item to the
caller's price 99 with `item_total = 297.00` (and `POST /api/bills` persists
exactly that), while the near-duplicate `VegetableService` of `src/index.ts`
resolves it to the catalogue's 2.50 with `item_total = 7.50` as the claim
(and the spec) state. -/
theorem fixed_price_override_dropped_in_service :
    ((VegetableServiceImpl.validateAndCreateVegetables potatoCat 1 [potatoItem]).2.map
        (fun it => (it.price, it.item_total)) = [(99, some 297)]) ∧
    ((IndexVegetableService.validateAndCreateVegetables potatoCat 1 [potatoItem]).2.map
        (fun it => (it.price, it.item_total)) = [(5/2, some (15/2))]) ∧
    respOf (postBill allDb allCache potatoStore cs0 100 101 potatoReq) =
      BillResponse.created potatoBill ∧
    potatoBill.items.map (fun it => it.item_total) = [some 297] := by
  refine ⟨?_, ?_, ?_, ?_⟩
  · norm_num [VegetableServiceImpl.validateAndCreateVegetables,
      VegetableServiceImpl.validatePass, VegetableServiceImpl.resolveExisting,
      VegetableServiceImpl.newRowsFor, VegetableServiceImpl.mapNewRows, findVeg,
      toFixed2, potatoCat, potatoVeg, potatoItem]
  · norm_num [IndexVegetableService.validateAndCreateVegetables,
      IndexVegetableService.validatePass, IndexVegetableService.resolveExisting,
      VegetableServiceImpl.newRowsFor, VegetableServiceImpl.mapNewRows, findVeg,
      toFixed2, potatoCat, potatoVeg, potatoItem]
  · norm_num [respOf, postBill, billViolations, itemViolations, isUuid_nil,
      VegetableServiceImpl.validateAndCreateVegetables, VegetableServiceImpl.validatePass,
      VegetableServiceImpl.resolveExisting, VegetableServiceImpl.resolveNew,
      VegetableServiceImpl.newRowsFor, VegetableServiceImpl.mapNewRows, findVeg, toFixed2,
      potatoStore, potatoCat, potatoVeg, potatoItem, potatoReq, potatoBill, potatoResolved,
      allDb, List.filterMap_cons, List.filterMap_nil]
  · norm_num [potatoBill, potatoResolved]

/-- C2, counterexample. Two line items sharing the previously-unseen name
"Kale" make the reconciler insert TWO catalogue rows for the one distinct
name (the batch is not deduplicated), and the output resolves BOTH created
rows back to the first "Kale" line item (quantity 1, price 2) — the second
line item (quantity 3, price 4) is dropped from the output. -/
theorem duplicate_unseen_name_creates_two_rows :
    (((VegetableServiceImpl.validateAndCreateVegetables [] 0 [kaleA, kaleB]).1.1.filter
        (fun v => v.name == "Kale")).length = 2) ∧
    ((VegetableServiceImpl.validateAndCreateVegetables [] 0 [kaleA, kaleB]).2.map
        (fun it => (it.name, it.quantity, it.price)) =
      [("Kale", (1 : ℚ), (2 : ℚ)), ("Kale", 1, 2)]) ∧
    (kaleB.quantity, kaleB.price) = (3, 4) := by
  refine ⟨?_, ?_, ?_⟩
  · norm_num [VegetableServiceImpl.validateAndCreateVegetables,
      VegetableServiceImpl.validatePass, VegetableServiceImpl.newRowsFor,
      VegetableServiceImpl.mapNewRows, findVeg, kaleA, kaleB, List.filter_cons]
  · norm_num [VegetableServiceImpl.validateAndCreateVegetables,
      VegetableServiceImpl.validatePass, VegetableServiceImpl.resolveNew,
      VegetableServiceImpl.newRowsFor, VegetableServiceImpl.mapNewRows, findVeg,
      toFixed2, kaleA, kaleB, List.filterMap_cons, List.filterMap_nil]
  · norm_num [kaleB]

/-- C3. Uniqueness of catalogue names is NOT enforced at the storage
layer: the drizzle schema declares no unique constraint on
`vegetables.name` (only `signers.name` carries `.unique()`), and both a
single bill creation with two unseen "Leek" lines and two `POST
/api/vegetables` calls naming "Leek" leave the store with two catalogue rows
of the same name. -/
theorem vegetable_name_uniqueness_not_enforced :
    ((vegetablesTable.find? (fun c => c.columnName == "name")).map (fun c => c.isUnique) =
      some false) ∧
    ((signersTable.find? (fun c => c.columnName == "name")).map (fun c => c.isUnique) =
      some true) ∧
    (((storeOf (postBill allDb allCache store0 cs0 100 101 leekReq)).vegetables.filter
        (fun v => v.name == "Leek")).length = 2) ∧
    ((((postVegetable allCache (postVegetable allCache store0 vcs0 leekCreate).1 vcs0
        leekCreate).1).vegetables.filter (fun v => v.name == "Leek")).length = 2) := by
  refine ⟨by decide, by decide, ?_, ?_⟩
  · norm_num [storeOf, postBill, billViolations, itemViolations, isUuid_nil,
      VegetableServiceImpl.validateAndCreateVegetables, VegetableServiceImpl.validatePass,
      VegetableServiceImpl.resolveNew, VegetableServiceImpl.newRowsFor,
      VegetableServiceImpl.mapNewRows, findVeg, toFixed2, store0, leekReq, allDb,
      List.filterMap_cons, List.filterMap_nil, List.filter_cons]
  · norm_num [postVegetable, store0, leekCreate, List.filter_cons]

/-- C9, counterexample. The reconciler does not preserve submission
order: with "Potato" already in the catalogue, submitting
`[Kale (unseen), Potato (known)]` yields the resolved list
`[Potato, Kale]` — known items come first, then the newly created ones. -/
theorem submission_order_not_preserved :
    ((VegetableServiceImpl.validateAndCreateVegetables potatoCat 1 [kaleA, potatoItem]).2.map
        (fun it => it.name) = ["Potato", "Kale"]) ∧
    ([kaleA, potatoItem].map (fun it => it.name) = ["Kale", "Potato"]) ∧
    (["Potato", "Kale"] ≠ (["Kale", "Potato"] : List String)) := by
  refine ⟨?_, by decide, by decide⟩
  have hk : findVeg potatoCat "Kale" = none := by rfl
  have hp : findVeg potatoCat "Potato" = some potatoVeg := by rfl
  norm_num [VegetableServiceImpl.validateAndCreateVegetables,
    VegetableServiceImpl.validatePass, VegetableServiceImpl.resolveExisting,
    VegetableServiceImpl.resolveNew, VegetableServiceImpl.newRowsFor,
    VegetableServiceImpl.mapNewRows, hk, hp, toFixed2, potatoVeg,
    potatoItem, kaleA, List.filterMap_cons, List.filterMap_nil]

namespace VegetableServiceImpl

theorem validatePass_fst (cat : List Vegetable) (items : List VegetableItem) :
    (validatePass cat items).1 =
      (items.filter (fun it => (findVeg cat it.name).isSome)).map
        (fun it => match findVeg cat it.name with
          | some v => resolveExisting it v
          | none => it) := by
  induction items with
  | nil => rfl
  | cons x rest ih =>
    cases h : findVeg cat x.name with
    | some v => simp [validatePass, h, ih, List.filter_cons]
    | none => simp [validatePass, h, ih, List.filter_cons]

/-- When the unseen names of the input are pairwise distinct, the input item
bearing an unseen name is the unique item with that name, hence the first
one `items.find` retrieves. -/
theorem find_first_unseen (cat : List Vegetable) (items : List VegetableItem)
    (hnd : ((items.filter (fun it => (findVeg cat it.name).isNone)).map (·.name)).Nodup)
    (it : VegetableItem) (hmem : it ∈ items) (hun : findVeg cat it.name = none) :
    items.find? (fun x => x.name == it.name) = some it := by
  induction items with
  | nil => simp at hmem
  | cons x rest ih =>
    rcases List.mem_cons.mp hmem with heq | htail
    · subst heq
      simp [List.find?_cons_of_pos]
    · have hxname : x.name ≠ it.name := by
        intro hxe
        have hxun : findVeg cat x.name = none := by rw [hxe]; exact hun
        have htailmem :
            it.name ∈ ((rest.filter (fun y => (findVeg cat y.name).isNone)).map (·.name)) :=
          List.mem_map.mpr ⟨it, List.mem_filter.mpr ⟨htail, by simp [hun]⟩, rfl⟩
        rw [List.filter_cons_of_pos (by simp [hxun])] at hnd
        simp only [List.map_cons, List.nodup_cons] at hnd
        exact hnd.1 (hxe ▸ htailmem)
      have hndtail :
          ((rest.filter (fun y => (findVeg cat y.name).isNone)).map (·.name)).Nodup := by
        rw [List.filter_cons] at hnd
        by_cases hx : (findVeg cat x.name).isNone
        · rw [if_pos (by simp [hx])] at hnd
          simp only [List.map_cons, List.nodup_cons] at hnd
          exact hnd.2
        · rwa [if_neg (by simp at hx ⊢; simp [hx])] at hnd
      rw [List.find?_cons_of_neg _ (by simp [hxname])]
      exact ih hndtail htail

end VegetableServiceImpl

/-- C2, amended. When every previously-unseen name occurs at most once in
the batch, the reconciler creates exactly one row per distinct unseen name in
one batch insert, and every item bearing such a name appears in the output
resolved against that single row. (When an unseen name occurs several times,
one row is created per occurrence and every created row maps back to the
first item with that name — see the counterexample.) -/
theorem reconcile_distinct_unseen_names (cat : List Vegetable) (nid : Nat)
    (items : List VegetableItem)
    (hnd : ((items.filter (fun it => (findVeg cat it.name).isNone)).map (·.name)).Nodup) :
    (VegetableServiceImpl.validateAndCreateVegetables cat nid items).1.1 =
      cat ++ VegetableServiceImpl.newRowsFor nid
        (VegetableServiceImpl.validatePass cat items).2 ∧
    (VegetableServiceImpl.newRowsFor nid
        (VegetableServiceImpl.validatePass cat items).2).map (fun v => v.name) =
      (items.filter (fun it => (findVeg cat it.name).isNone)).map (·.name) ∧
    ((VegetableServiceImpl.newRowsFor nid
        (VegetableServiceImpl.validatePass cat items).2).map (fun v => v.name)).Nodup ∧
    ∀ it ∈ items, findVeg cat it.name = none →
      ∃ v ∈ VegetableServiceImpl.newRowsFor nid
          (VegetableServiceImpl.validatePass cat items).2,
        v.name = it.name ∧
        (∀ w ∈ VegetableServiceImpl.newRowsFor nid
            (VegetableServiceImpl.validatePass cat items).2, w.name = it.name → w = v) ∧
        VegetableServiceImpl.resolveNew it v ∈
          (VegetableServiceImpl.validateAndCreateVegetables cat nid items).2 := by
  have hnames : (VegetableServiceImpl.newRowsFor nid
      (VegetableServiceImpl.validatePass cat items).2).map (fun v => v.name) =
      (items.filter (fun it => (findVeg cat it.name).isNone)).map (·.name) := by
    rw [VegetableServiceImpl.newRowsFor_names, VegetableServiceImpl.validatePass_snd]
  refine ⟨rfl, hnames, by rw [hnames]; exact hnd, ?_⟩
  intro it hmem hun
  have hinmap : it.name ∈ (VegetableServiceImpl.newRowsFor nid
      (VegetableServiceImpl.validatePass cat items).2).map (fun v => v.name) := by
    rw [hnames]
    exact List.mem_map.mpr ⟨it, List.mem_filter.mpr ⟨hmem, by simp [hun]⟩, rfl⟩
  obtain ⟨v, hv, hvname⟩ := List.mem_map.mp hinmap
  refine ⟨v, hv, hvname, ?_, ?_⟩
  · intro w hw hwname
    have hnodup := hnames ▸ hnd
    exact List.inj_on_of_nodup_map (hnames ▸ hnd) hw hv (by rw [hwname, hvname])
  · unfold VegetableServiceImpl.validateAndCreateVegetables
    apply List.mem_append_right
    rw [VegetableServiceImpl.mapNewRows, List.mem_filterMap]
    refine ⟨v, hv, ?_⟩
    have : (fun x => x.name == v.name) = (fun x : VegetableItem => x.name == it.name) := by
      funext x; rw [hvname]
    rw [this, VegetableServiceImpl.find_first_unseen cat items hnd it hmem hun]
    rfl

/-- C2, witness. The amended statement at a concrete input: an empty
catalogue and two distinct unseen names "Kale" and "Tomato". -/
theorem reconcile_distinct_unseen_names_witness :
    ∃ v ∈ VegetableServiceImpl.newRowsFor 0
        (VegetableServiceImpl.validatePass [] [kaleA, tomatoItem]).2,
      v.name = kaleA.name ∧
      (∀ w ∈ VegetableServiceImpl.newRowsFor 0
          (VegetableServiceImpl.validatePass [] [kaleA, tomatoItem]).2,
        w.name = kaleA.name → w = v) ∧
      VegetableServiceImpl.resolveNew kaleA v ∈
        (VegetableServiceImpl.validateAndCreateVegetables [] 0 [kaleA, tomatoItem]).2 :=
  (reconcile_distinct_unseen_names [] 0 [kaleA, tomatoItem] (by decide)).2.2.2
    kaleA (by simp) rfl

/-- C9, amended. The reconciled list always has the same length as the
input (duplicate-named line items stay distinct entries), but it is ordered
known items first — in submission order — followed by the entries produced
for the newly created rows, rather than in overall submission order. -/
theorem reconcile_known_first_structure (cat : List Vegetable) (nid : Nat)
    (items : List VegetableItem) :
    (VegetableServiceImpl.validateAndCreateVegetables cat nid items).2.length =
      items.length ∧
    (VegetableServiceImpl.validatePass cat items).1 =
      (items.filter (fun it => (findVeg cat it.name).isSome)).map
        (fun it => match findVeg cat it.name with
          | some v => VegetableServiceImpl.resolveExisting it v
          | none => it) ∧
    (VegetableServiceImpl.validateAndCreateVegetables cat nid items).2 =
      (VegetableServiceImpl.validatePass cat items).1 ++
        VegetableServiceImpl.mapNewRows items
          (VegetableServiceImpl.newRowsFor nid
            (VegetableServiceImpl.validatePass cat items).2) := by
  refine ⟨?_, VegetableServiceImpl.validatePass_fst cat items, rfl⟩
  have hmaplen : (VegetableServiceImpl.mapNewRows items
      (VegetableServiceImpl.newRowsFor nid
        (VegetableServiceImpl.validatePass cat items).2)).length =
      (VegetableServiceImpl.newRowsFor nid
        (VegetableServiceImpl.validatePass cat items).2).length := by
    apply VegetableServiceImpl.mapNewRows_length
    intro r hr
    have : r.name ∈ (VegetableServiceImpl.newRowsFor nid
        (VegetableServiceImpl.validatePass cat items).2).map (fun v => v.name) :=
      List.mem_map.mpr ⟨r, hr, rfl⟩
    rw [VegetableServiceImpl.newRowsFor_names, VegetableServiceImpl.validatePass_snd] at this
    obtain ⟨y, hy, hyname⟩ := List.mem_map.mp this
    exact ⟨y, (List.mem_filter.mp hy).1, hyname⟩
  unfold VegetableServiceImpl.validateAndCreateVegetables
  rw [List.length_append, hmaplen, VegetableServiceImpl.newRowsFor_length]
  exact VegetableServiceImpl.validatePass_length cat items


/-- C4. Every persisted line item's `item_total` is the per-item rounded
product `toFixed2(price × quantity)` (the price being the effective price the
resolved item carries), and the persisted bill's `total` is `toFixed2` of the
sum of those already-rounded `item_total` values; the concrete
two-half-cent bill shows this is NOT the rounding of the sum of un-rounded
products (0.02 versus 0.01). -/
theorem item_total_rounded_per_item_then_total :
    (∀ (oracle : DbOracle) (co : CacheOracle) (store : Store) (cs : CacheState (List Bill))
      (now nowIns : Nat) (req : BillRequest) (b : Bill),
      respOf (postBill oracle co store cs now nowIns req) = BillResponse.created b →
      (∀ it ∈ b.items, it.item_total = some (toFixed2 (it.price * it.quantity))) ∧
      b.total = toFixed2 ((b.items.map (fun it => toFixed2 (it.price * it.quantity))).sum)) ∧
    (respOf (postBill allDb allCache store0 cs0 100 101 halfCentReq) =
        BillResponse.created halfCentBill ∧
      halfCentBill.total = 1/50 ∧
      toFixed2 ((halfCentReq.items.map (fun it => it.price * it.quantity)).sum) = 1/100 ∧
      ((1 : ℚ)/50 ≠ 1/100)) := by
  constructor
  · intro oracle co store cs now nowIns req b h
    simp only [postBill, respOf] at h
    split_ifs at h <;>
      (simp only [BillResponse.created.injEq] at h
       subst h
       dsimp only
       refine ⟨VegetableServiceImpl.reconcile_item_total _ _ _, ?_⟩
       rw [foldl_item_total _ (VegetableServiceImpl.reconcile_item_total _ _ _) 0, zero_add])
  · refine ⟨?_, by norm_num [halfCentBill], ?_, by norm_num [toFixed2]⟩
    · simp [respOf, postBill, billViolations, itemViolations, isUuid_nil,
        VegetableServiceImpl.validateAndCreateVegetables, VegetableServiceImpl.validatePass,
        VegetableServiceImpl.resolveNew, VegetableServiceImpl.newRowsFor,
        VegetableServiceImpl.mapNewRows, findVeg, store0, halfCentReq,
        halfCentA, halfCentB, allDb, halfCentBill, halfCentResolvedA, halfCentResolvedB,
        List.filterMap_cons, List.filterMap_nil, List.find?_cons, List.find?_nil, toFixed2]
      norm_num
    · norm_num [halfCentReq, halfCentA, halfCentB, toFixed2]

/-- C4, witness. The per-item-then-total rounding law instantiated on a
concrete successful creation. -/
theorem item_total_rounded_per_item_then_total_witness :
    (∀ it ∈ bill1.items, it.item_total = some (toFixed2 (it.price * it.quantity))) ∧
    bill1.total = toFixed2 ((bill1.items.map (fun it => toFixed2 (it.price * it.quantity))).sum) :=
  item_total_rounded_per_item_then_total.1 allDb allCache store0 cs0 100 101 req1 bill1 (by
    simp [respOf, postBill, billViolations, itemViolations, isUuid_nil,
      VegetableServiceImpl.validateAndCreateVegetables, VegetableServiceImpl.validatePass,
      VegetableServiceImpl.resolveNew, VegetableServiceImpl.newRowsFor,
      VegetableServiceImpl.mapNewRows, findVeg, store0, req1, tomatoItem, allDb,
      bill1, tomatoResolved, List.filterMap_cons, List.filterMap_nil, List.find?_cons,
      List.find?_nil, toFixed2]
    norm_num)

/-- C5. Within one bill-creation call the observable effects are ordered
catalogue batch insert, then bill insert, then invalidation of `bills:all`
(the trace is always a sublist of that canonical order); if the catalogue
batch insert fails, the call aborts with a 500, no bill is inserted, no
invalidation happens and the store is untouched; and the invalidation occurs
only in runs where the bill was successfully persisted. -/
theorem bill_creation_write_ordering (oracle : DbOracle) (co : CacheOracle) (store : Store)
    (cs : CacheState (List Bill)) (now nowIns : Nat) (req : BillRequest) :
    (traceOf (postBill oracle co store cs now nowIns req)).Sublist
      [DbEvent.vegInsert (VegetableServiceImpl.validatePass store.vegetables req.items).2,
        DbEvent.billInsert, DbEvent.cacheDelBills] ∧
    ((billViolations { req with date := some (req.date.getD now) }).isEmpty = true →
      (VegetableServiceImpl.validatePass store.vegetables req.items).2 ≠ [] →
      oracle.vegInsertOk = false →
      respOf (postBill oracle co store cs now nowIns req) = BillResponse.serverError ∧
      traceOf (postBill oracle co store cs now nowIns req) = [] ∧
      storeOf (postBill oracle co store cs now nowIns req) = store) ∧
    (DbEvent.cacheDelBills ∈ traceOf (postBill oracle co store cs now nowIns req) →
      DbEvent.billInsert ∈ traceOf (postBill oracle co store cs now nowIns req) ∧
      ∃ b, respOf (postBill oracle co store cs now nowIns req) = BillResponse.created b ∧
        (storeOf (postBill oracle co store cs now nowIns req)).bills = store.bills ++ [b]) ∧
    (∀ d, respOf (postBill oracle co store cs now nowIns req) = BillResponse.validationError d →
      traceOf (postBill oracle co store cs now nowIns req) = [] ∧
      storeOf (postBill oracle co store cs now nowIns req) = store) := by
  simp only [postBill, respOf, traceOf, storeOf]
  split_ifs with h1 h2 h3 h4 h5
  · -- success, empty batch
    refine ⟨?_, ?_, ?_, ?_⟩
    · dsimp only
      simp only [List.nil_append]
      exact List.Sublist.cons _ (List.Sublist.refl _)
    · intro _ hne _
      exact absurd (List.isEmpty_iff.mp h4) hne
    · intro _
      dsimp only
      exact ⟨by simp, _, rfl, rfl⟩
    · intro d hd
      simp at hd
  · -- success, nonempty batch
    refine ⟨?_, ?_, ?_, ?_⟩
    · dsimp only
      exact List.Sublist.refl _
    · intro _ hne hveg
      simp [hveg] at h2
      exact absurd h2 hne
    · intro _
      dsimp only
      exact ⟨by simp, _, rfl, rfl⟩
    · intro d hd
      simp at hd
  · -- bill insert fails, empty batch
    refine ⟨?_, ?_, ?_, ?_⟩
    · dsimp only
      exact List.nil_sublist _
    · intro _ hne _
      exact absurd (List.isEmpty_iff.mp h5) hne
    · intro hmem
      simp at hmem
    · intro d hd
      simp at hd
  · -- bill insert fails, nonempty batch
    refine ⟨?_, ?_, ?_, ?_⟩
    · dsimp only
      exact List.Sublist.cons₂ _ (List.nil_sublist _)
    · intro _ hne hveg
      simp [hveg] at h2
      exact absurd h2 hne
    · intro hmem
      simp at hmem
    · intro d hd
      simp at hd
  · -- vegetable batch insert fails
    refine ⟨?_, ?_, ?_, ?_⟩
    · dsimp only
      exact List.nil_sublist _
    · intro _ _ _
      exact ⟨rfl, rfl, rfl⟩
    · intro hmem
      simp at hmem
    · intro d hd
      exact ⟨rfl, rfl⟩
  · -- validation fails
    refine ⟨?_, ?_, ?_, ?_⟩
    · dsimp only
      exact List.nil_sublist _
    · intro hv _ _
      exact absurd hv h1
    · intro hmem
      simp at hmem
    · intro d hd
      exact ⟨rfl, rfl⟩

/-- C5, witness. The abort conjunct instantiated: with a failing
vegetable batch insert and one unseen item, the call returns the 500, writes
nothing and leaves the store unchanged. -/
theorem bill_creation_write_ordering_witness :
    respOf (postBill vegFailDb allCache store0 cs0 100 101 req1) = BillResponse.serverError ∧
    traceOf (postBill vegFailDb allCache store0 cs0 100 101 req1) = [] ∧
    storeOf (postBill vegFailDb allCache store0 cs0 100 101 req1) = store0 :=
  (bill_creation_write_ordering vegFailDb allCache store0 cs0 100 101 req1).2.1
    (by simp [billViolations, itemViolations, req1, tomatoItem, isUuid_nil])
    (by decide) rfl

/-- C6. A bill request containing a line item with non-positive quantity
or non-positive price is rejected by `billSchema.parse` with a non-empty
structured violation list (surfaced as the 400 validation response), and the
rejection happens before any store write: the event trace is empty and the
store is unchanged. -/
theorem nonpositive_item_rejected_before_writes (oracle : DbOracle) (co : CacheOracle)
    (store : Store) (cs : CacheState (List Bill)) (now nowIns : Nat) (req : BillRequest)
    (h : ∃ it ∈ req.items, it.quantity ≤ 0 ∨ it.price ≤ 0) :
    (∃ d, respOf (postBill oracle co store cs now nowIns req) =
        BillResponse.validationError d ∧ d ≠ []) ∧
    traceOf (postBill oracle co store cs now nowIns req) = [] ∧
    storeOf (postBill oracle co store cs now nowIns req) = store := by
  obtain ⟨it, hit, hcase⟩ := h
  have hv : ∃ v, v ∈ billViolations { req with date := some (req.date.getD now) } := by
    rcases hcase with hq | hp
    · refine ⟨Violation.nonPositiveQuantity it.name, ?_⟩
      unfold billViolations
      apply List.mem_append_left
      apply List.mem_append_right
      rw [List.mem_flatMap]
      exact ⟨it, by simpa using hit, by simp [itemViolations, hq]⟩
    · refine ⟨Violation.nonPositivePrice it.name, ?_⟩
      unfold billViolations
      apply List.mem_append_left
      apply List.mem_append_right
      rw [List.mem_flatMap]
      refine ⟨it, by simpa using hit, ?_⟩
      unfold itemViolations
      apply List.mem_append_left
      apply List.mem_append_right
      simp [hp]
  obtain ⟨v, hvmem⟩ := hv
  have hne : billViolations { req with date := some (req.date.getD now) } ≠ [] :=
    List.ne_nil_of_mem hvmem
  have hcond : ¬((billViolations { req with date := some (req.date.getD now) }).isEmpty = true) := by
    simpa using hne
  simp only [postBill, respOf, traceOf, storeOf]
  rw [if_neg hcond]
  exact ⟨⟨_, rfl, hne⟩, rfl, rfl⟩

/-- C6, witness. A request with `quantity = 0` is rejected with a
non-empty violation list and nothing is written. -/
theorem nonpositive_item_rejected_before_writes_witness :
    (∃ d, respOf (postBill allDb allCache store0 cs0 100 101 zeroQtyReq) =
        BillResponse.validationError d ∧ d ≠ []) ∧
    traceOf (postBill allDb allCache store0 cs0 100 101 zeroQtyReq) = [] ∧
    storeOf (postBill allDb allCache store0 cs0 100 101 zeroQtyReq) = store0 :=
  nonpositive_item_rejected_before_writes allDb allCache store0 cs0 100 101 zeroQtyReq
    (by norm_num [zeroQtyReq])

/-- C7. Cache failures degrade silently: a backend failure during `get`
returns `none` (a miss) for every key and cache content; a backend failure
during `set` or `delete` returns normally leaving the state as it was; the
bills listing route always produces an `ok` response and, when the cache
`get` fails, serves the store's data; and the bill-creation handler's store
effects, event trace and response are independent of the cache oracle and
cache state, so no cache failure ever fails the enclosing request. -/
theorem cache_failures_never_fail_requests :
    (∀ (α : Type) (cs : CacheState α) (k : String) (s d : Bool),
      cacheGet ⟨false, s, d⟩ cs k = none) ∧
    (∀ (α : Type) (cs : CacheState α) (k : String) (v : α) (ttl : Nat) (g d : Bool),
      cacheSet ⟨g, false, d⟩ cs k v ttl = cs) ∧
    (∀ (α : Type) (cs : CacheState α) (k : String) (g s : Bool),
      cacheDel ⟨g, s, false⟩ cs k = cs) ∧
    (∀ (co : CacheOracle) (cs : CacheState (List Bill)) (store : Store),
      ∃ data, (getBills co cs store).2 = Except.ok data) ∧
    (∀ (cs : CacheState (List Bill)) (store : Store) (s d : Bool),
      (getBills ⟨false, s, d⟩ cs store).2 = Except.ok (sortBillsByDateDesc store.bills)) ∧
    (∀ (oracle : DbOracle) (store : Store) (now nowIns : Nat) (req : BillRequest)
      (co co' : CacheOracle) (cs cs' : CacheState (List Bill)),
      storeOf (postBill oracle co store cs now nowIns req) =
        storeOf (postBill oracle co' store cs' now nowIns req) ∧
      traceOf (postBill oracle co store cs now nowIns req) =
        traceOf (postBill oracle co' store cs' now nowIns req) ∧
      respOf (postBill oracle co store cs now nowIns req) =
        respOf (postBill oracle co' store cs' now nowIns req)) := by
  refine ⟨?_, ?_, ?_, ?_, ?_, ?_⟩
  · intro α cs k s d; rfl
  · intro α cs k v ttl g d; rfl
  · intro α cs k g s; rfl
  · intro co cs store
    cases hg : cacheGet co cs "bills:all" with
    | none => exact ⟨sortBillsByDateDesc store.bills, by simp [getBills, hg]⟩
    | some c => exact ⟨c, by simp [getBills, hg]⟩
  · intro cs store s d; rfl
  · intro oracle store now nowIns req co co' cs cs'
    refine ⟨?_, ?_, ?_⟩ <;>
      (simp only [postBill, respOf, traceOf, storeOf]
       split_ifs <;> rfl)

/-- C8. The persisted bill's `date` (and `createdAt`) never equals the
caller-supplied date: although the handler defaults `date` to the handler
clock and validates it, the insert overwrites both fields with fresh
`new Date()` readings, so every created bill carries the insert-time clock —
concretely, supplying `date = 5` persists `date = 101` (the insert clock). -/
theorem bill_date_overwritten_at_insert :
    (∀ (oracle : DbOracle) (co : CacheOracle) (store : Store) (cs : CacheState (List Bill))
      (now nowIns : Nat) (req : BillRequest),
      billStamps (respOf (postBill oracle co store cs now nowIns req)) = none ∨
      billStamps (respOf (postBill oracle co store cs now nowIns req)) =
        some (nowIns, nowIns)) ∧
    dateReq.date = some 5 ∧
    billStamps (respOf (postBill allDb allCache store0 cs0 100 101 dateReq)) =
      some (101, 101) ∧
    some ((101 : Nat), (101 : Nat)) ≠ some ((5 : Nat), (5 : Nat)) := by
  refine ⟨?_, rfl, ?_, by decide⟩
  · intro oracle co store cs now nowIns req
    simp only [postBill, respOf, billStamps]
    split_ifs <;> simp
  · simp [respOf, postBill, billViolations, itemViolations, isUuid_nil,
      VegetableServiceImpl.validateAndCreateVegetables, VegetableServiceImpl.validatePass,
      VegetableServiceImpl.resolveNew, VegetableServiceImpl.newRowsFor,
      VegetableServiceImpl.mapNewRows, findVeg, store0, dateReq, tomatoItem, allDb,
      List.filterMap_cons, List.filterMap_nil, List.find?_cons, List.find?_nil,
      toFixed2, billStamps]

/-- C10. The schema `billSchema` requires `total` to be present and strictly
positive — a missing or non-positive `total` is rejected with the
corresponding violation before any store write — yet the supplied value is
never used: two accepted requests differing only in their (positive) `total`
produce identical results, and every persisted bill's `total` is the
server-computed `toFixed2` of the sum of the resolved items' `item_total`
values. -/
theorem total_required_but_ignored :
    (∀ (oracle : DbOracle) (co : CacheOracle) (store : Store) (cs : CacheState (List Bill))
      (now nowIns : Nat) (req : BillRequest), req.total = none →
      (∃ d, respOf (postBill oracle co store cs now nowIns req) =
          BillResponse.validationError d ∧ Violation.missingTotal ∈ d) ∧
      traceOf (postBill oracle co store cs now nowIns req) = [] ∧
      storeOf (postBill oracle co store cs now nowIns req) = store) ∧
    (∀ (oracle : DbOracle) (co : CacheOracle) (store : Store) (cs : CacheState (List Bill))
      (now nowIns : Nat) (req : BillRequest) (t : ℚ), req.total = some t → t ≤ 0 →
      (∃ d, respOf (postBill oracle co store cs now nowIns req) =
          BillResponse.validationError d ∧ Violation.nonPositiveTotal ∈ d) ∧
      traceOf (postBill oracle co store cs now nowIns req) = [] ∧
      storeOf (postBill oracle co store cs now nowIns req) = store) ∧
    (∀ (oracle : DbOracle) (co : CacheOracle) (store : Store) (cs : CacheState (List Bill))
      (now nowIns : Nat) (req : BillRequest) (t₁ t₂ : ℚ), 0 < t₁ → 0 < t₂ →
      postBill oracle co store cs now nowIns { req with total := some t₁ } =
        postBill oracle co store cs now nowIns { req with total := some t₂ }) ∧
    (∀ (oracle : DbOracle) (co : CacheOracle) (store : Store) (cs : CacheState (List Bill))
      (now nowIns : Nat) (req : BillRequest) (b : Bill),
      respOf (postBill oracle co store cs now nowIns req) = BillResponse.created b →
      b.total = toFixed2 (b.items.foldl (fun sum it => sum + it.item_total.getD 0) 0)) := by
  refine ⟨?_, ?_, ?_, ?_⟩
  · intro oracle co store cs now nowIns req hreq
    have hvmem : Violation.missingTotal ∈
        billViolations { req with date := some (req.date.getD now) } := by
      unfold billViolations
      apply List.mem_append_right
      simp [hreq]
    have hcond : ¬((billViolations { req with date := some (req.date.getD now) }).isEmpty
        = true) := by
      simpa using List.ne_nil_of_mem hvmem
    simp only [postBill, respOf, traceOf, storeOf]
    rw [if_neg hcond]
    exact ⟨⟨_, rfl, hvmem⟩, rfl, rfl⟩
  · intro oracle co store cs now nowIns req t hreq ht
    have hvmem : Violation.nonPositiveTotal ∈
        billViolations { req with date := some (req.date.getD now) } := by
      unfold billViolations
      apply List.mem_append_right
      simp [hreq, ht]
    have hcond : ¬((billViolations { req with date := some (req.date.getD now) }).isEmpty
        = true) := by
      simpa using List.ne_nil_of_mem hvmem
    simp only [postBill, respOf, traceOf, storeOf]
    rw [if_neg hcond]
    exact ⟨⟨_, rfl, hvmem⟩, rfl, rfl⟩
  · intro oracle co store cs now nowIns req t₁ t₂ ht₁ ht₂
    obtain ⟨pid, pname, its, tot, sg, dt⟩ := req
    have hv : billViolations ⟨pid, pname, its, some t₁, sg, some (dt.getD now)⟩ =
        billViolations ⟨pid, pname, its, some t₂, sg, some (dt.getD now)⟩ := by
      unfold billViolations
      simp [not_le.mpr ht₁, not_le.mpr ht₂]
    simp only [postBill]
    rw [hv]
  · intro oracle co store cs now nowIns req b h
    simp only [postBill, respOf] at h
    split_ifs at h <;>
      (simp only [BillResponse.created.injEq] at h
       subst h
       rfl)

/-- C10, witness. A request without the `total` field is rejected with a
`missingTotal` violation and nothing is written. -/
theorem total_required_but_ignored_witness :
    (∃ d, respOf (postBill allDb allCache store0 cs0 100 101 noTotalReq) =
        BillResponse.validationError d ∧ Violation.missingTotal ∈ d) ∧
    traceOf (postBill allDb allCache store0 cs0 100 101 noTotalReq) = [] ∧
    storeOf (postBill allDb allCache store0 cs0 100 101 noTotalReq) = store0 :=
  total_required_but_ignored.1 allDb allCache store0 cs0 100 101 noTotalReq rfl
